import Mathlib

/-!
Verification of the `cla` plugin (`pkg/plugins/cla/cla.go`): the two event
handlers `handle` (status-event path) and `handleComment` (comment path) are
embedded as pure functions.  External GitHub calls are modelled by an
environment of oracles; each handler returns its outcome together with the
list of external calls it performed, in order.  Label-mutation calls
(`AddLabel` / `RemoveLabel`) always appear in the trace when the code issues
them; their own failures are only logged by the code and change no control
flow, so they need no oracle.
-/

namespace Cla

/-- cla.go line 36: the recognized CLA status context. -/
def claContextName : String := "EasyCLA"

/-- cla.go line 37: bound on search attempts. -/
def maxRetries : Nat := 5

/-- Modelled from the spec: the wire value of the pending verdict state
(constant `StatusPending` of the github package, which is not in src). -/
def statusPending : String := "pending"

/-- Modelled from the spec: the wire value of the success verdict state. -/
def statusSuccess : String := "success"

/-- Modelled from the spec: the wire value of the failure verdict state. -/
def statusFailure : String := "failure"

/-- Modelled from the spec: the wire value of the error verdict state. -/
def statusError : String := "error"

/-- Modelled from the spec: the positive ("compliant") label name, constant
`ClaYes` of the labels package, which is not in src.  Only its distinctness
from the negative label matters. -/
def claYes : String := "cncf-cla: yes"

/-- Modelled from the spec: the negative ("non-compliant") label name,
constant `ClaNo` of the labels package, which is not in src. -/
def claNo : String := "cncf-cla: no"

/-- Modelled from the spec: the wire value of the comment action "created"
(constant `GenericCommentActionCreated` of the github package). -/
def actionCreated : String := "created"

/-- An issue as returned by the search: its number and its label names
(github.Issue restricted to the fields cla.go reads). -/
structure Issue where
  number : Nat
  labelNames : List String
deriving DecidableEq

/-- A pull request restricted to the fields cla.go reads: its number and the
SHA of its head commit. -/
structure PullRequest where
  number : Nat
  headSHA : String
deriving DecidableEq

/-- One entry of a combined status: context name and state. -/
structure Status where
  context : String
  state : String
deriving DecidableEq

/-- github.CombinedStatus restricted to the field cla.go reads. -/
structure CombinedStatus where
  statuses : List Status
deriving DecidableEq

/-- github.StatusEvent restricted to the fields cla.go reads. -/
structure StatusEvent where
  state : String
  context : String
  sha : String
deriving DecidableEq

/-- github.GenericCommentEvent restricted to the fields cla.go reads, plus
the wire type's IsPR flag: the flag is carried so that pull-request-ness can
be stated, but cla.go never consults it — the handler is registered for
generic comment events and checks only the issue state and the action. -/
structure GenericCommentEvent where
  isPR : Bool
  issueState : String
  action : String
  body : String
  number : Nat
deriving DecidableEq

/-- One external GitHub call, as recorded in a handler's trace. -/
inductive Call where
  | findIssues (attempt : Nat)
  | getPullRequest (number : Nat)
  | getIssueLabels
  | getCombinedStatus (ref : String)
  | addLabel (number : Nat) (label : String)
  | removeLabel (number : Nat) (label : String)
deriving DecidableEq

/-- A call is a label mutation (AddLabel or RemoveLabel). -/
def isMutation : Call → Bool
  | .addLabel _ _ => true
  | .removeLabel _ _ => true
  | _ => false

/-- A call is a search (FindIssues). -/
def isSearch : Call → Bool
  | .findIssues _ => true
  | _ => false

/-- Oracles for the status path.  `findIssues i` is the result of the
(i+1)-th FindIssues attempt; `getPullRequest n` the result of fetching PR n.
`Except.error` stands for a non-nil Go error (and hence a nil result). -/
structure StatusEnv where
  findIssues : Nat → Except Unit (List Issue)
  getPullRequest : Nat → Except Unit PullRequest

/-- Oracles for the comment path. -/
structure CommentEnv where
  getIssueLabels : Except Unit (List String)
  getPullRequest : Nat → Except Unit PullRequest
  getCombinedStatus : String → Except Unit CombinedStatus

/-- Outcome of the comment handler: the Go function either returns nil or
dereferences a nil pointer (modelled as `crash`).  It never returns a
non-nil error. -/
inductive COutcome where
  | ok
  | crash
deriving DecidableEq

/-- The character class of Go regexp `\s`: `[\t\n\f\r ]`. -/
def isWS (c : Char) : Bool :=
  c = ' ' ∨ c = '\t' ∨ c = '\n' ∨ c = '\x0c' ∨ c = '\r'

/-- Split a character list at newlines; a text with k newlines yields k+1
lines (as `strings.Split` / the regex line structure would). -/
def splitLines : List Char → List (List Char)
  | [] => [[]]
  | c :: rest =>
    match splitLines rest with
    | [] => [[]]
    | l :: ls => if c = '\n' then [] :: l :: ls else (c :: l) :: ls

/-- cla.go line 41, one line of the body against `(?mi)^/check-cla\s*$`:
after case folding (modelled as ASCII lowering, which covers the command's
alphabet), the line is the literal command followed only by whitespace. -/
def lineMatches (l : List Char) : Bool :=
  ((l.map Char.toLower).take 10 == "/check-cla".toList) &&
    ((l.map Char.toLower).drop 10).all isWS

/-- cla.go line 41: `checkCLARe.MatchString(body)`.  With the `m` flag,
`^ ... $` is anchored at line boundaries, so the regex matches iff some
newline-separated line of the body matches. -/
def checkCLAMatch (body : String) : Bool :=
  (splitLines body.toList).any lineMatches

/-- cla.go lines 104-113: the search-with-retry loop.  `i` is the index of
the next attempt, `fuel` the number of attempts left.  Returns the value the
loop leaves in `issues` (or the first error) and the trace of search calls.
When all attempts found nothing the loop falls through with the last (empty)
result. -/
def findLoop (env : StatusEnv) (i : Nat) : Nat → Except Unit (List Issue) × List Call
  | 0 => (Except.ok [], [])
  | fuel + 1 =>
    match env.findIssues i with
    | Except.error e => (Except.error e, [Call.findIssues i])
    | Except.ok issues =>
      if 0 < issues.length then (Except.ok issues, [Call.findIssues i])
      else
        let rest := findLoop env (i + 1) fuel
        (rest.1, Call.findIssues i :: rest.2)

/-- cla.go lines 116-167: the per-candidate body of the loop over matched
issues.  Returns the calls made for this candidate.  `hasCncfYes` and
`hasCncfNo` of the code are inlined as `contains` tests. -/
def processIssue (env : StatusEnv) (se : StatusEvent) (issue : Issue) : List Call :=
  if issue.labelNames.contains claYes ∧ se.state = statusSuccess then []
  else if issue.labelNames.contains claNo ∧
      (se.state = statusFailure ∨ se.state = statusError) then []
  else
    match env.getPullRequest issue.number with
    | Except.error _ => [Call.getPullRequest issue.number]
    | Except.ok pr =>
      if pr.headSHA ≠ se.sha then [Call.getPullRequest issue.number]
      else if se.state = statusSuccess then
        Call.getPullRequest issue.number ::
          ((if issue.labelNames.contains claNo then [Call.removeLabel pr.number claNo]
            else []) ++
            [Call.addLabel pr.number claYes])
      else
        Call.getPullRequest issue.number ::
          ((if issue.labelNames.contains claYes then [Call.removeLabel pr.number claYes]
            else []) ++
            [Call.addLabel pr.number claNo])

/-- cla.go line 85: the malformed-event error message. -/
def errInvalid : String := "invalid status event delivered with empty state/context"

/-- cla.go line 107: the search error message (wrapping elided). -/
def errSearch : String := "error searching for issues matching commit"

/-- cla.go lines 83-169: the status-event handler `handle`.  Returns the Go
error result and the trace of external calls. -/
def handle (env : StatusEnv) (se : StatusEvent) : Except String Unit × List Call :=
  if se.state = "" ∨ se.context = "" then (Except.error errInvalid, [])
  else if se.context ≠ claContextName then (Except.ok (), [])
  else if se.state = statusPending then (Except.ok (), [])
  else
    match findLoop env 0 maxRetries with
    | (Except.error _, trace) => (Except.error errSearch, trace)
    | (Except.ok issues, trace) =>
      (Except.ok (), trace ++ (issues.map (processIssue env se)).flatten)

/-- cla.go lines 224-256: the per-entry label logic of the comment path for
the matched CLA context entry. -/
def claBranch (hasCLAYes hasCLANo : Bool) (number : Nat) (state : String) : List Call :=
  if state = statusSuccess then
    (if hasCLANo then [Call.removeLabel number claNo] else []) ++
      (if hasCLAYes then [] else [Call.addLabel number claYes])
  else if state = statusFailure then
    (if hasCLAYes then [Call.removeLabel number claYes] else []) ++
      (if hasCLANo then [] else [Call.addLabel number claNo])
  else []

/-- cla.go lines 218-261: scan the combined statuses for the CLA context;
the first matching entry is handled and the loop breaks. -/
def scanStatuses : List Status → Bool → Bool → Nat → List Call
  | [], _, _, _ => []
  | s :: rest, y, n, num =>
    if s.context = claContextName then claBranch y n num s.state
    else scanStatuses rest y n num

/-- cla.go lines 192-204: the label names the comment path works from.  On a
GetIssueLabels error the code only logs and keeps going with the nil slice,
so both label flags read false. -/
def fetchedLabelNames (env : CommentEnv) : List String :=
  match env.getIssueLabels with
  | Except.error _ => []
  | Except.ok ls => ls

/-- cla.go lines 175-263: the comment handler `handleComment`.  On a fetch
error the code only logs and continues; a failed GetPullRequest or
GetCombinedStatus leaves a nil pointer that the next line dereferences,
modelled as `COutcome.crash`. -/
def handleComment (env : CommentEnv) (e : GenericCommentEvent) :
    COutcome × List Call :=
  if e.issueState ≠ "open" ∨ e.action ≠ actionCreated then (COutcome.ok, [])
  else if ¬ checkCLAMatch e.body then (COutcome.ok, [])
  else
    match env.getPullRequest e.number with
    | Except.error _ => (COutcome.crash, [Call.getIssueLabels, Call.getPullRequest e.number])
    | Except.ok pr =>
      match env.getCombinedStatus pr.headSHA with
      | Except.error _ =>
        (COutcome.crash,
          [Call.getIssueLabels, Call.getPullRequest e.number, Call.getCombinedStatus pr.headSHA])
      | Except.ok combined =>
        (COutcome.ok,
          [Call.getIssueLabels, Call.getPullRequest e.number, Call.getCombinedStatus pr.headSHA] ++
            scanStatuses combined.statuses ((fetchedLabelNames env).contains claYes)
              ((fetchedLabelNames env).contains claNo) e.number)

/-- Modelled from the spec (§4.3): the trigger pattern as the claims state
it — the literal command on its own line, case-insensitive, optionally
surrounded by whitespace on that line.  Used only to compare the claimed
trigger condition with the source regex `checkCLAMatch`. -/
def specLineIsCommand (l : List Char) : Bool :=
  (((l.map Char.toLower).dropWhile isWS).reverse.dropWhile isWS).reverse ==
    "/check-cla".toList

/-- Modelled from the spec (§4.3): some line of the body is the command. -/
def specTrigger (body : String) : Bool :=
  (splitLines body.toList).any specLineIsCommand

/-- The trace produced by `fuel` consecutive fruitless search attempts
starting at attempt `i`. -/
def attemptCalls (i : Nat) : Nat → List Call
  | 0 => []
  | fuel + 1 => Call.findIssues i :: attemptCalls (i + 1) fuel

end Cla

deriving instance DecidableEq for Except

namespace Cla

lemma findLoop_all_empty (env : StatusEnv) :
    ∀ (fuel i : Nat), (∀ j, j < fuel → env.findIssues (i + j) = Except.ok []) →
      findLoop env i fuel = (Except.ok [], attemptCalls i fuel)
  | 0, i, _ => rfl
  | fuel + 1, i, h => by
    have h0 : env.findIssues i = Except.ok [] := by
      have := h 0 (Nat.succ_pos _)
      simpa using this
    have hrest : ∀ j, j < fuel → env.findIssues (i + 1 + j) = Except.ok [] := by
      intro j hj
      have := h (j + 1) (Nat.succ_lt_succ hj)
      simpa [Nat.add_assoc, Nat.add_comm 1 j] using this
    simp only [findLoop, h0, List.length_nil, Nat.lt_irrefl, if_false,
      findLoop_all_empty env fuel (i + 1) hrest, attemptCalls]

lemma findLoop_first_hit (env : StatusEnv) (i fuel : Nat) (issues : List Issue)
    (h : env.findIssues i = Except.ok issues) (hlen : 0 < issues.length) :
    findLoop env i (fuel + 1) = (Except.ok issues, [Call.findIssues i]) := by
  simp only [findLoop, h, hlen, if_true]

lemma findLoop_no_mut (env : StatusEnv) :
    ∀ (fuel i : Nat), ((findLoop env i fuel).2).any isMutation = false
  | 0, _ => rfl
  | fuel + 1, i => by
    unfold findLoop
    cases env.findIssues i with
    | error e => rfl
    | ok issues =>
      by_cases hl : 0 < issues.length
      · simp [hl, isMutation]
      · simp [hl, isMutation, findLoop_no_mut env fuel (i + 1)]

lemma processIssue_all (env : StatusEnv) (se : StatusEvent) (issue : Issue)
    (p : Call → Bool) (hget : ∀ n, p (Call.getPullRequest n) = false)
    (hadd : ∀ n l, p (Call.addLabel n l) = false)
    (hrem : ∀ n l, p (Call.removeLabel n l) = false) :
    (processIssue env se issue).any p = false := by
  unfold processIssue
  split
  · rfl
  split
  · rfl
  split
  · simp [hget]
  split
  · simp [hget]
  split <;> split <;> simp [hget, hadd, hrem]

lemma processIssue_no_search (env : StatusEnv) (se : StatusEvent) (issue : Issue) :
    (processIssue env se issue).any isSearch = false :=
  processIssue_all env se issue isSearch (fun _ => rfl) (fun _ _ => rfl) (fun _ _ => rfl)

lemma processIssue_stale (env : StatusEnv) (se : StatusEvent) (issue : Issue)
    (h : ∀ pr, env.getPullRequest issue.number = Except.ok pr → pr.headSHA ≠ se.sha) :
    (processIssue env se issue).any isMutation = false := by
  unfold processIssue
  split
  · rfl
  split
  · rfl
  split
  · rfl
  rename_i pr hpr
  rw [if_pos (h pr hpr)]
  rfl

lemma flatten_process_all (env : StatusEnv) (se : StatusEvent) (p : Call → Bool)
    (h : ∀ issue, (processIssue env se issue).any p = false) (issues : List Issue) :
    (((issues.map (processIssue env se)).flatten).any p) = false := by
  rw [List.any_eq_false]
  intro c hc
  rw [List.mem_flatten] at hc
  obtain ⟨l, hl, hcl⟩ := hc
  rw [List.mem_map] at hl
  obtain ⟨issue, _, rfl⟩ := hl
  exact (List.any_eq_false.mp (h issue)) c hcl

lemma handle_no_mut (env : StatusEnv) (se : StatusEvent)
    (h : ∀ issue, (processIssue env se issue).any isMutation = false) :
    ((handle env se).2).any isMutation = false := by
  unfold handle
  split
  · rfl
  split
  · rfl
  split
  · rfl
  cases hfl : findLoop env 0 maxRetries with
  | mk r trace =>
    have htr : trace.any isMutation = false := by
      have := findLoop_no_mut env maxRetries 0
      rw [hfl] at this
      exact this
    cases r with
    | error e => simpa using htr
    | ok issues =>
      simp only [List.any_append, htr, Bool.false_or,
        flatten_process_all env se isMutation h issues]

lemma claBranch_other (y n : Bool) (num : Nat) (state : String)
    (h1 : state ≠ statusSuccess) (h2 : state ≠ statusFailure) :
    claBranch y n num state = [] := by
  unfold claBranch
  rw [if_neg h1, if_neg h2]

lemma scanStatuses_eq_nil :
    ∀ (sts : List Status) (y n : Bool) (num : Nat),
      (∀ s ∈ sts, s.context = claContextName → claBranch y n num s.state = []) →
      scanStatuses sts y n num = []
  | [], _, _, _, _ => rfl
  | s :: rest, y, n, num, h => by
    unfold scanStatuses
    split
    · exact h s (List.mem_cons_self ..) (by assumption)
    · exact scanStatuses_eq_nil rest y n num
        (fun t ht hc => h t (List.mem_cons_of_mem _ ht) hc)

lemma all_dropWhile_append (p : Char → Bool) :
    ∀ (ws xs : List Char), ws.all p = true → (ws ++ xs).dropWhile p = xs.dropWhile p
  | [], _, _ => rfl
  | c :: ws, xs, h => by
    simp only [List.all_cons, Bool.and_eq_true] at h
    simp only [List.cons_append, List.dropWhile_cons, h.1, if_true]
    exact all_dropWhile_append p ws xs h.2

lemma lineMatches_spec (l : List Char) (h : lineMatches l = true) :
    specLineIsCommand l = true := by
  unfold lineMatches at h
  rw [Bool.and_eq_true, beq_iff_eq] at h
  obtain ⟨h1, h2⟩ := h
  unfold specLineIsCommand
  rw [beq_iff_eq]
  have hsplit : l.map Char.toLower =
      "/check-cla".toList ++ (l.map Char.toLower).drop 10 := by
    conv_lhs => rw [← List.take_append_drop 10 (l.map Char.toLower)]
    rw [h1]
  rw [hsplit]
  have hc : "/check-cla".toList = '/' :: "check-cla".toList := by decide
  have hhead : ("/check-cla".toList ++ (l.map Char.toLower).drop 10).dropWhile isWS =
      "/check-cla".toList ++ (l.map Char.toLower).drop 10 := by
    rw [hc, List.cons_append, List.dropWhile_cons_of_neg (by decide), ← List.cons_append,
      ← hc]
  rw [hhead, List.reverse_append,
    all_dropWhile_append isWS _ _ (by rw [List.all_reverse]; exact h2)]
  decide

lemma checkCLA_imp_spec (body : String) (h : checkCLAMatch body = true) :
    specTrigger body = true := by
  unfold checkCLAMatch at h
  unfold specTrigger
  rw [List.any_eq_true] at h ⊢
  obtain ⟨lchars, hmem, hlm⟩ := h
  exact ⟨lchars, hmem, lineMatches_spec lchars hlm⟩

lemma handleComment_no_mut (env : CommentEnv) (e : GenericCommentEvent)
    (h : ∀ ref cs y n, env.getCombinedStatus ref = Except.ok cs →
      scanStatuses cs.statuses y n e.number = []) :
    ((handleComment env e).2).any isMutation = false := by
  unfold handleComment
  split
  · rfl
  split
  · rfl
  split
  · rfl
  rename_i pr hpr
  split
  · rfl
  rename_i combined hcs
  rw [h pr.headSHA combined ((fetchedLabelNames env).contains claYes)
    ((fetchedLabelNames env).contains claNo) hcs, List.append_nil]
  rfl

/-- C1: counterexample.  Status path, success verdict, PR carries both
labels, event SHA equal to the PR head: the claim demands that the negative
label be removed, but `handle` stops at the "PR has up-to-date label" check
(cla.go line 120) and performs no label call at all — the whole trace is the
single successful search. -/
theorem c1_counterexample :
    handle ⟨fun _ => Except.ok [⟨1, [claYes, claNo]⟩], fun n => Except.ok ⟨n, "h1"⟩⟩
        ⟨statusSuccess, claContextName, "h1"⟩ =
      (Except.ok (), [Call.findIssues 0]) := by
  decide

/-- C2: the claim says a fetch failure in the comment path stops processing
with zero label mutations; in the code only the log line runs and processing
falls through.  Evaluation at a failing GetIssueLabels (PR and combined
status fine, CLA entry successful): `handleComment` still issues
AddLabel(cncf-cla yes) — a mutation attempted after the fetch failure. -/
theorem c2_bug :
    handleComment
        ⟨Except.error (), fun n => Except.ok ⟨n, "h"⟩,
          fun _ => Except.ok ⟨[⟨claContextName, statusSuccess⟩]⟩⟩
        ⟨true, "open", actionCreated, "/check-cla", 7⟩ =
      (COutcome.ok,
        [Call.getIssueLabels, Call.getPullRequest 7, Call.getCombinedStatus "h",
          Call.addLabel 7 claYes]) := by
  decide

/-- C3: counterexample.  Comment path, CLA combined-status entry in state
error, PR carrying the positive label: the claim demands removal of the
positive label, but cla.go lines 224-256 test only success and failure, so
the error entry falls through both branches and no label call is made. -/
theorem c3_counterexample :
    handleComment
        ⟨Except.ok [claYes], fun n => Except.ok ⟨n, "h"⟩,
          fun _ => Except.ok ⟨[⟨claContextName, statusError⟩]⟩⟩
        ⟨true, "open", actionCreated, "/check-cla", 7⟩ =
      (COutcome.ok,
        [Call.getIssueLabels, Call.getPullRequest 7, Call.getCombinedStatus "h"]) := by
  decide

/-- C3 amended: in the comment path an error-state CLA entry is ignored —
whenever every CLA-context entry of any fetched combined status has state
error, `handleComment` performs zero label mutations (only success and
failure entries trigger transitions). -/
theorem c3_amended (env : CommentEnv) (e : GenericCommentEvent)
    (h : ∀ ref cs, env.getCombinedStatus ref = Except.ok cs →
      ∀ s ∈ cs.statuses, s.context = claContextName → s.state = statusError) :
    ((handleComment env e).2).any isMutation = false := by
  refine handleComment_no_mut env e (fun ref cs y n hcs => ?_)
  refine scanStatuses_eq_nil cs.statuses y n e.number (fun s hs hctx => ?_)
  rw [h ref cs hcs s hs hctx]
  exact claBranch_other y n e.number statusError (by decide) (by decide)

/-- C3 amended, witness: the amended theorem applied to a concrete
environment whose only combined-status entry is an error-state CLA entry. -/
theorem c3_witness :
    ((handleComment
        ⟨Except.ok [claYes], fun n => Except.ok ⟨n, "h"⟩,
          fun _ => Except.ok ⟨[⟨claContextName, statusError⟩]⟩⟩
        ⟨true, "open", actionCreated, "/check-cla", 9⟩).2).any isMutation = false := by
  refine c3_amended _ _ ?_
  intro ref cs hcs s hs hctx
  injection hcs with h2
  subst h2
  simp only [List.mem_singleton] at hs
  subst hs
  rfl

/-- C4: the claim says the dereferences after GetPullRequest and
GetCombinedStatus are well-defined on the error branch; in the code an error
leaves a nil pointer that `pr.Head.SHA` resp. `combined.Statuses`
dereferences.  Evaluation at each failing fetch yields the crash outcome. -/
theorem c4_bug :
    handleComment ⟨Except.ok [], fun _ => Except.error (), fun _ => Except.ok ⟨[]⟩⟩
        ⟨true, "open", actionCreated, "/check-cla", 7⟩ =
      (COutcome.crash, [Call.getIssueLabels, Call.getPullRequest 7]) ∧
    handleComment ⟨Except.ok [], fun n => Except.ok ⟨n, "h"⟩, fun _ => Except.error ()⟩
        ⟨true, "open", actionCreated, "/check-cla", 7⟩ =
      (COutcome.crash,
        [Call.getIssueLabels, Call.getPullRequest 7, Call.getCombinedStatus "h"]) := by
  decide

/-- C5: counterexample.  A FindIssues error on the first attempt: the claim
says `handle` continues best-effort and returns no error, but cla.go line
107 returns the wrapped error immediately after the single failed search. -/
theorem c5_counterexample :
    handle ⟨fun _ => Except.error (), fun n => Except.ok ⟨n, "h"⟩⟩
        ⟨statusSuccess, claContextName, "h"⟩ =
      (Except.error errSearch, [Call.findIssues 0]) := by
  decide

/-- C5 amended: a FindIssues error is fatal, not best-effort — for any
status event that passes the early checks, a failing first search attempt
makes `handle` return the search error immediately, with that single search
call as the entire trace (no retries, no mutations). -/
theorem c5_amended (env : StatusEnv) (se : StatusEvent)
    (h1 : se.state ≠ "") (h2 : se.context = claContextName)
    (h3 : se.state ≠ statusPending) (h4 : env.findIssues 0 = Except.error ()) :
    handle env se = (Except.error errSearch, [Call.findIssues 0]) := by
  have hfl : findLoop env 0 maxRetries = (Except.error (), [Call.findIssues 0]) := by
    rw [(by decide : maxRetries = 4 + 1)]
    unfold findLoop
    rw [h4]
  have hcond : ¬(se.state = "" ∨ se.context = "") := by
    rintro (hs | hc)
    · exact h1 hs
    · exact absurd (h2.symm.trans hc) (by decide)
  have hctx : ¬se.context ≠ claContextName := fun hcn => hcn h2
  unfold handle
  rw [if_neg hcond, if_neg hctx, if_neg h3, hfl]

/-- C5 amended, witness: the amended theorem applied at a concrete event and
environment whose search fails. -/
theorem c5_witness :
    handle ⟨fun _ => Except.error (), fun n => Except.ok ⟨n, "h"⟩⟩
        ⟨statusFailure, claContextName, "sha9"⟩ =
      (Except.error errSearch, [Call.findIssues 0]) :=
  c5_amended _ _ (by decide) rfl (by decide) rfl

/-- C9: counterexample.  A status event with pending state and empty
context: the claim says `handle` returns nil with no calls, but the
malformed-event check (cla.go line 84) fires first and returns an error
(the trace is indeed empty). -/
theorem c9_counterexample :
    handle ⟨fun _ => Except.ok [], fun n => Except.ok ⟨n, "h"⟩⟩
        ⟨statusPending, "", "x"⟩ =
      (Except.error errInvalid, []) := by
  decide

/-- C1 amended: in the comment path the opposite label is removed whenever
present for success and failure verdicts — including the anomalous
both-present state — while an error verdict there removes nothing; in the
status path the removal happens only when the verdict-matching label is
absent (and the event SHA is the PR head): with both labels present the
status path performs no label call at all. -/
theorem c1_amended (env : StatusEnv) (se : StatusEvent) (num : Nat) (y n : Bool) :
    Call.removeLabel num claNo ∈ claBranch y true num statusSuccess ∧
    Call.removeLabel num claYes ∈ claBranch true n num statusFailure ∧
    claBranch y n num statusError = [] ∧
    (se.state = statusSuccess ∨ se.state = statusFailure ∨ se.state = statusError →
      processIssue env se ⟨num, [claYes, claNo]⟩ = []) ∧
    (se.state = statusSuccess → env.getPullRequest num = Except.ok ⟨num, se.sha⟩ →
      Call.removeLabel num claNo ∈ processIssue env se ⟨num, [claNo]⟩) ∧
    ((se.state = statusFailure ∨ se.state = statusError) →
      env.getPullRequest num = Except.ok ⟨num, se.sha⟩ →
      Call.removeLabel num claYes ∈ processIssue env se ⟨num, [claYes]⟩) := by
  refine ⟨?_, ?_, claBranch_other y n num statusError (by decide) (by decide), ?_, ?_, ?_⟩
  · unfold claBranch
    rw [if_pos rfl]
    cases y <;> simp
  · unfold claBranch
    rw [if_neg (by decide), if_pos rfl]
    cases n <;> simp
  · intro hst
    unfold processIssue
    rcases hst with h | h | h
    · rw [if_pos ⟨rfl, h⟩]
    · rw [if_neg (fun hb => absurd (h.symm.trans hb.2) (by decide)),
        if_pos ⟨rfl, Or.inl h⟩]
    · rw [if_neg (fun hb => absurd (h.symm.trans hb.2) (by decide)),
        if_pos ⟨rfl, Or.inr h⟩]
  · intro hst hpr
    unfold processIssue
    have hy1 : ¬((⟨num, [claNo]⟩ : Issue).labelNames.contains claYes = true ∧
        se.state = statusSuccess) :=
      fun hb => absurd hb.1 (of_decide_eq_false rfl)
    rw [if_neg hy1]
    have hno : ¬((([claNo] : List String).contains claNo) = true ∧
        (se.state = statusFailure ∨ se.state = statusError)) := by
      rintro ⟨_, hf | he⟩
      · exact absurd (hst.symm.trans hf) (by decide)
      · exact absurd (hst.symm.trans he) (by decide)
    rw [if_neg hno]
    split
    · rename_i a heq
      rw [hpr] at heq
      cases heq
    · rename_i pr heq
      rw [hpr] at heq
      injection heq with h2
      subst h2
      rw [if_neg (fun hne => hne rfl), if_pos hst]
      simp
  · intro hst hpr
    unfold processIssue
    have hys : ¬((([claYes] : List String).contains claYes) = true ∧
        se.state = statusSuccess) := by
      rintro ⟨_, hs⟩
      rcases hst with h | h
      · exact absurd (h.symm.trans hs) (by decide)
      · exact absurd (h.symm.trans hs) (by decide)
    have hn1 : ¬((⟨num, [claYes]⟩ : Issue).labelNames.contains claNo = true ∧
        (se.state = statusFailure ∨ se.state = statusError)) :=
      fun hb => absurd hb.1 (of_decide_eq_false rfl)
    rw [if_neg hys, if_neg hn1]
    split
    · rename_i a heq
      rw [hpr] at heq
      cases heq
    · rename_i pr heq
      rw [hpr] at heq
      injection heq with h2
      subst h2
      rw [if_neg (fun hne => hne rfl)]
      have hns : ¬se.state = statusSuccess := by
        rcases hst with h | h
        · exact fun hs => absurd (h.symm.trans hs) (by decide)
        · exact fun hs => absurd (h.symm.trans hs) (by decide)
      rw [if_neg hns]
      simp

/-- C1 amended, witness: all six conjuncts instantiated at a concrete
environment whose PR head matches the event SHA. -/
theorem c1_witness :
    Call.removeLabel 3 claNo ∈ claBranch false true 3 statusSuccess ∧
    processIssue ⟨fun _ => Except.ok [], fun n => Except.ok ⟨n, "s"⟩⟩
        ⟨statusSuccess, claContextName, "s"⟩ ⟨3, [claYes, claNo]⟩ = [] ∧
    Call.removeLabel 3 claNo ∈
      processIssue ⟨fun _ => Except.ok [], fun n => Except.ok ⟨n, "s"⟩⟩
        ⟨statusSuccess, claContextName, "s"⟩ ⟨3, [claNo]⟩ := by
  have h := c1_amended ⟨fun _ => Except.ok [], fun n => Except.ok ⟨n, "s"⟩⟩
    ⟨statusSuccess, claContextName, "s"⟩ 3 false true
  exact ⟨h.1, h.2.2.2.1 (Or.inl rfl), h.2.2.2.2.1 rfl rfl⟩

/-- C5 gave the search a fatal role; C6 asks about the retry bound when no
attempt errs.  C6: with every attempt returning zero issues the handler
makes exactly the five search calls and returns without error; with a hit on
the first attempt exactly one search call is made. -/
theorem c6_retry (env : StatusEnv) (se : StatusEvent)
    (h1 : se.state ≠ "") (h2 : se.context = claContextName)
    (h3 : se.state ≠ statusPending) :
    ((∀ i, i < maxRetries → env.findIssues i = Except.ok []) →
      handle env se =
        (Except.ok (), [Call.findIssues 0, Call.findIssues 1, Call.findIssues 2,
          Call.findIssues 3, Call.findIssues 4])) ∧
    (∀ issues, env.findIssues 0 = Except.ok issues → 0 < issues.length →
      ((handle env se).2).countP isSearch = 1) := by
  have hcond : ¬(se.state = "" ∨ se.context = "") := by
    rintro (hs | hc)
    · exact h1 hs
    · exact absurd (h2.symm.trans hc) (by decide)
  have hctx : ¬se.context ≠ claContextName := fun hcn => hcn h2
  constructor
  · intro hall
    have hfl := findLoop_all_empty env maxRetries 0 (fun j hj => by simpa using hall j hj)
    unfold handle
    rw [if_neg hcond, if_neg hctx, if_neg h3, hfl]
    rfl
  · intro issues hiss hlen
    have hfl : findLoop env 0 maxRetries = (Except.ok issues, [Call.findIssues 0]) := by
      rw [(by decide : maxRetries = 4 + 1)]
      exact findLoop_first_hit env 0 4 issues hiss hlen
    unfold handle
    rw [if_neg hcond, if_neg hctx, if_neg h3, hfl]
    show (([Call.findIssues 0] ++
      (issues.map (processIssue env se)).flatten).countP isSearch) = 1
    rw [List.countP_append,
      List.countP_eq_zero.mpr
        (List.any_eq_false.mp
          (flatten_process_all env se isSearch (processIssue_no_search env se) issues))]
    rfl

/-- C6, witness: both conjuncts at concrete environments — one that always
finds nothing (five searches, nil result) and one that hits at once (one
search). -/
theorem c6_witness :
    handle ⟨fun _ => Except.ok [], fun n => Except.ok ⟨n, "h"⟩⟩
        ⟨statusSuccess, claContextName, "h"⟩ =
      (Except.ok (), [Call.findIssues 0, Call.findIssues 1, Call.findIssues 2,
        Call.findIssues 3, Call.findIssues 4]) ∧
    ((handle ⟨fun _ => Except.ok [⟨1, []⟩], fun n => Except.ok ⟨n, "h"⟩⟩
        ⟨statusSuccess, claContextName, "h"⟩).2).countP isSearch = 1 :=
  ⟨(c6_retry _ _ (by decide) rfl (by decide)).1 (fun _ _ => rfl),
    (c6_retry _ _ (by decide) rfl (by decide)).2 [⟨1, []⟩] rfl (by decide)⟩

/-- C7: counterexample.  An open issue that is NOT a pull request, with a
newly created `/check-cla` comment: the claim says `handleComment` performs
no external calls unless the issue is an open PR, but cla.go line 177 tests
only the issue state and the action, never PR-ness, so the handler proceeds
to fetch labels, the (non-existent) pull request and the combined status. -/
theorem c7_counterexample :
    handleComment ⟨Except.ok [], fun n => Except.ok ⟨n, "h"⟩, fun _ => Except.ok ⟨[]⟩⟩
        ⟨false, "open", actionCreated, "/check-cla", 7⟩ =
      (COutcome.ok,
        [Call.getIssueLabels, Call.getPullRequest 7, Call.getCombinedStatus "h"]) := by
  decide

/-- C7 amended: outside its actual preconditions the comment handler is a
silent no-op — unless the issue is open, the action is creation, and the
body contains the command on its own line (case-insensitive, optionally
surrounded by whitespace), `handleComment` returns nil having made no
external call; whether the issue is a pull request is never consulted (the
handler behaves identically for either value of the IsPR flag).  The code's
regex requires the command at the start of the line, which implies the
claimed pattern, so the stated trigger condition is necessary. -/
theorem c7_trigger (env : CommentEnv) (e : GenericCommentEvent) :
    (¬(e.issueState = "open" ∧ e.action = actionCreated ∧
        specTrigger e.body = true) →
      handleComment env e = (COutcome.ok, [])) ∧
    (∀ b : Bool,
      handleComment env ⟨b, e.issueState, e.action, e.body, e.number⟩ =
        handleComment env e) := by
  constructor
  · intro h
    unfold handleComment
    split
    · rfl
    rename_i hpre
    have hopen : e.issueState = "open" := by
      by_contra hx
      exact hpre (Or.inl hx)
    have hact : e.action = actionCreated := by
      by_contra hx
      exact hpre (Or.inr hx)
    rw [if_pos (fun hm => h ⟨hopen, hact, checkCLA_imp_spec e.body hm⟩)]
  · intro b
    rfl

/-- C7, witness: an edited (not created) comment is ignored, and flipping
the IsPR flag of a concrete event does not change the handler's run. -/
theorem c7_witness :
    handleComment ⟨Except.ok [], fun n => Except.ok ⟨n, "h"⟩, fun _ => Except.ok ⟨[]⟩⟩
        ⟨true, "open", "edited", "/check-cla", 3⟩ =
      (COutcome.ok, []) ∧
    handleComment ⟨Except.ok [], fun n => Except.ok ⟨n, "h"⟩, fun _ => Except.ok ⟨[]⟩⟩
        ⟨false, "open", "edited", "/check-cla", 3⟩ =
      handleComment ⟨Except.ok [], fun n => Except.ok ⟨n, "h"⟩, fun _ => Except.ok ⟨[]⟩⟩
        ⟨true, "open", "edited", "/check-cla", 3⟩ :=
  ⟨(c7_trigger _ _).1 (by decide), (c7_trigger _ ⟨true, "open", "edited", "/check-cla", 3⟩).2 false⟩

/-- C8: staleness guard — if every PR the environment can return has a head
SHA different from the event's SHA, the status path performs zero label
mutations, whatever the verdict and the candidates' labels. -/
theorem c8_stale (env : StatusEnv) (se : StatusEvent)
    (h : ∀ m pr, env.getPullRequest m = Except.ok pr → pr.headSHA ≠ se.sha) :
    ((handle env se).2).any isMutation = false :=
  handle_no_mut env se fun issue => processIssue_stale env se issue (h issue.number)

/-- C8, witness: a candidate with an out-of-date label whose head commit
differs from the event SHA — no mutation is attempted. -/
theorem c8_witness :
    ((handle ⟨fun _ => Except.ok [⟨1, [claNo]⟩], fun n => Except.ok ⟨n, "old"⟩⟩
        ⟨statusSuccess, claContextName, "new"⟩).2).any isMutation = false := by
  refine c8_stale _ _ ?_
  intro m pr hp
  injection hp with h2
  subst h2
  exact of_decide_eq_false rfl

/-- C9 amended: a pending verdict never produces a mutation — a pending
status event makes no external call at all and returns nil whenever its
context is non-empty (with an empty context it returns the malformed-event
error, still with no calls); and when every CLA entry of any fetched
combined status is pending, the comment path makes no label mutation. -/
theorem c9_amended :
    (∀ (env : StatusEnv) (se : StatusEvent), se.state = statusPending →
      (handle env se).2 = [] ∧
        (se.context ≠ "" → handle env se = (Except.ok (), []))) ∧
    (∀ (env : CommentEnv) (e : GenericCommentEvent),
      (∀ ref cs, env.getCombinedStatus ref = Except.ok cs →
        ∀ s ∈ cs.statuses, s.context = claContextName → s.state = statusPending) →
      ((handleComment env e).2).any isMutation = false) := by
  constructor
  · intro env se hp
    by_cases hc0 : se.context = ""
    · have hrun : handle env se = (Except.error errInvalid, []) := by
        unfold handle
        rw [if_pos (Or.inr hc0)]
      exact ⟨by rw [hrun], fun hne => absurd hc0 hne⟩
    · have hcond : ¬(se.state = "" ∨ se.context = "") := by
        rintro (hs | hc)
        · exact absurd (hp.symm.trans hs) (by decide)
        · exact hc0 hc
      by_cases hcc : se.context = claContextName
      · have hrun : handle env se = (Except.ok (), []) := by
          unfold handle
          rw [if_neg hcond, if_neg (fun hcn => hcn hcc), if_pos hp]
        exact ⟨by rw [hrun], fun _ => hrun⟩
      · have hrun : handle env se = (Except.ok (), []) := by
          unfold handle
          rw [if_neg hcond, if_pos hcc]
        exact ⟨by rw [hrun], fun _ => hrun⟩
  · intro env e h
    refine handleComment_no_mut env e (fun ref cs y n hcs => ?_)
    refine scanStatuses_eq_nil cs.statuses y n e.number (fun s hs hctx => ?_)
    rw [h ref cs hcs s hs hctx]
    exact claBranch_other y n e.number statusPending (by decide) (by decide)

/-- C9 amended, witness: a pending status event on the CLA context, and a
comment event whose combined status holds a single pending CLA entry. -/
theorem c9_witness :
    handle ⟨fun _ => Except.ok [], fun n => Except.ok ⟨n, "h"⟩⟩
        ⟨statusPending, claContextName, "x"⟩ =
      (Except.ok (), []) ∧
    ((handleComment
        ⟨Except.ok [], fun n => Except.ok ⟨n, "h"⟩,
          fun _ => Except.ok ⟨[⟨claContextName, statusPending⟩]⟩⟩
        ⟨true, "open", actionCreated, "/check-cla", 4⟩).2).any isMutation = false := by
  constructor
  · exact (c9_amended.1 _ _ rfl).2 (by decide)
  · refine c9_amended.2 _ _ ?_
    intro ref cs hcs s hs hctx
    injection hcs with h2
    subst h2
    simp only [List.mem_singleton] at hs
    subst hs
    rfl

/-- C10: idempotence — a verdict matching the current label state yields
zero label calls: in the status path a success event on a candidate with
only the positive label, or a failure/error event on a candidate with only
the negative label, skips the candidate entirely; in the comment path the
matched-state label transition is empty. -/
theorem c10_idempotent (env : StatusEnv) (se : StatusEvent) (issue : Issue)
    (num : Nat) :
    (se.state = statusSuccess → issue.labelNames.contains claYes = true →
      issue.labelNames.contains claNo = false → processIssue env se issue = []) ∧
    ((se.state = statusFailure ∨ se.state = statusError) →
      issue.labelNames.contains claNo = true →
      issue.labelNames.contains claYes = false → processIssue env se issue = []) ∧
    claBranch true false num statusSuccess = [] ∧
    claBranch false true num statusFailure = [] ∧
    claBranch false true num statusError = [] := by
  refine ⟨?_, ?_, rfl, rfl, rfl⟩
  · intro hst hy _
    unfold processIssue
    rw [if_pos ⟨hy, hst⟩]
  · intro hst hn hyf
    unfold processIssue
    rw [if_neg (fun hb => absurd (hyf.symm.trans hb.1) (by decide)),
      if_pos ⟨hn, hst⟩]

/-- C10, witness: both paths at concrete matched states — a success event on
a PR with only the positive label, and the success transition with only the
positive flag set. -/
theorem c10_witness :
    processIssue ⟨fun _ => Except.ok [], fun n => Except.ok ⟨n, "h"⟩⟩
        ⟨statusSuccess, claContextName, "h"⟩ ⟨5, [claYes]⟩ = [] ∧
    claBranch true false 5 statusSuccess = [] := by
  have h := c10_idempotent ⟨fun _ => Except.ok [], fun n => Except.ok ⟨n, "h"⟩⟩
    ⟨statusSuccess, claContextName, "h"⟩ ⟨5, [claYes]⟩ 5
  exact ⟨h.1 rfl (by decide) (by decide), h.2.2.1⟩

end Cla
